import Mathlib

/- Formal model of the heartbeat liveness watchdog in
src/rabbitpy/heartbeat.py (class Checker).

Time is modelled as a rational number of seconds (the Python code uses
time.time() floats); the byte counter as a natural number.  The fields of
the Lean structure Checker mirror the Python attributes: interval for
self.interval, last_bytes for self.last_bytes, last_heartbeat for
self.last_heartbeat, timer for the single pending threading.Timer handle
(some t means a timer is armed to fire at absolute time t), and sink for
the sequence of exceptions put on the exception queue.  The lock only
serialises two scalar writes, so the sequential semantics below is the
faithful functional content of each operation. -/

/-- Exceptions the watchdog can put on its exception queue.  The only one is
ConnectionResetException carrying the message built from the elapsed age
(`No heartbeat in {age} seconds`); we record the age itself. -/
inductive RabbitExc where
  | connectionReset (age : ℚ)
deriving DecidableEq, Repr

/-- State of the Checker object together with its observable effects
(pending timer and queued exceptions). -/
structure Checker where
  interval : ℚ
  last_bytes : ℕ
  last_heartbeat : ℚ
  timer : Option ℚ
  sink : List RabbitExc
deriving DecidableEq, Repr

namespace Checker

/-- The constant MAX_MISSED_HEARTBEATS = 2 from the source. -/
def MAX_MISSED_HEARTBEATS : ℚ := 2

/-- Embeds Checker.__init__: interval 0, last_bytes 0, last_heartbeat 0,
no pending timer, empty exception queue. -/
def initial : Checker :=
  { interval := 0, last_bytes := 0, last_heartbeat := 0, timer := none, sink := [] }

/-- Embeds Checker.on_heartbeat: sets last_heartbeat to the current time. -/
def on_heartbeat (now : ℚ) (s : Checker) : Checker :=
  { s with last_heartbeat := now }

/-- Embeds Checker._start_heartbeat_timer: arms the (single) timer to fire
interval seconds from now. -/
def start_heartbeat_timer (now : ℚ) (s : Checker) : Checker :=
  { s with timer := some (now + s.interval) }

/-- Embeds Checker.start: stores the interval and, when it is non-zero
(Python truthiness of the float), arms the first timer. -/
def start (now i : ℚ) (s : Checker) : Checker :=
  if i ≠ 0 then ({ s with interval := i }).start_heartbeat_timer now
  else { s with interval := i }

/-- Embeds Checker._check_for_heartbeat, run when the armed timer fires (the
fired timer is consumed).  bytes_received is the value of
self.io.bytes_received read at the start of the check. -/
def check_for_heartbeat (now : ℚ) (bytes_received : ℕ) (s : Checker) : Checker :=
  if bytes_received > s.last_bytes then
    ({ s with last_bytes := bytes_received }).start_heartbeat_timer now
  else
    let age := now - s.last_heartbeat
    let threshold := s.interval * MAX_MISSED_HEARTBEATS
    if age ≥ threshold then
      { s with sink := s.sink ++ [RabbitExc.connectionReset age], timer := none }
    else
      s.start_heartbeat_timer now

/-- Modelled from the spec: teardown of the owning connection (the connection
module is not among the sources; the spec says teardown "must cancel any
pending timer").  Cancelling a threading.Timer only succeeds while the timer
is still in its waiting stage, i.e. strictly before its scheduled firing
time; the Checker itself holds no cancellation flag, so nothing else in the
state changes. -/
def teardown (now : ℚ) (s : Checker) : Checker :=
  match s.timer with
  | some ft => if now < ft then { s with timer := none } else s
  | none => s

end Checker

/-- The events a single Checker instance can experience, each stamped with
the absolute time at which it happens.  fire carries the byte counter value
read by the check; teardown is the owning connection tearing the watchdog
down. -/
inductive Event where
  | start (now i : ℚ)
  | heartbeat (now : ℚ)
  | fire (now : ℚ) (bytes_received : ℕ)
  | teardown (now : ℚ)
deriving DecidableEq, Repr

/-- Timestamp of an event. -/
def Event.time : Event → ℚ
  | .start now _ => now
  | .heartbeat now => now
  | .fire now _ => now
  | .teardown now => now

/-- Effect of one event on the Checker state. -/
def Checker.step (s : Checker) : Event → Checker
  | .start now i => s.start now i
  | .heartbeat now => s.on_heartbeat now
  | .fire now b => s.check_for_heartbeat now b
  | .teardown now => s.teardown now

/-- Run a trace of events from a state. -/
def run (s : Checker) : List Event → Checker
  | [] => s
  | e :: es => run (s.step e) es

/-- Well-formedness of a trace from state s at time t: event times are
non-decreasing, start intervals are non-negative, and a timer callback fires
exactly when a timer is armed for that instant, reading a byte counter that
has not decreased since the checker last recorded it. -/
def legal (s : Checker) (t : ℚ) : List Event → Bool
  | [] => true
  | e :: es =>
    (match e with
     | .start now i => decide (t ≤ now) && decide (0 ≤ i)
     | .heartbeat now => decide (t ≤ now)
     | .fire now b => decide (t ≤ now) && decide (s.timer = some now) && decide (s.last_bytes ≤ b)
     | .teardown now => decide (t ≤ now)) && legal (s.step e) e.time es

/-- Number of start events in a trace. -/
def countStarts : List Event → ℕ
  | [] => 0
  | Event.start _ _ :: es => countStarts es + 1
  | _ :: es => countStarts es

/-- Every start event in the trace carries interval 0. -/
def startsAllZero : List Event → Bool
  | [] => true
  | Event.start _ i :: es => decide (i = 0) && startsAllZero es
  | _ :: es => startsAllZero es

/-- Every fire event in the trace reads byte counter 0 (no bytes ever
received on the connection). -/
def firesZero : List Event → Bool
  | [] => true
  | Event.fire _ b :: es => decide (b = 0) && firesZero es
  | _ :: es => firesZero es

/-- Every fire event in the trace is preceded by a heartbeat less than
2 * i seconds old; o carries the time of the latest heartbeat so far. -/
def hbCovered (i : ℚ) : Option ℚ → List Event → Bool
  | _, [] => true
  | _, Event.heartbeat h :: es => hbCovered i (some h) es
  | o, Event.fire c _ :: es =>
      (match o with
       | some h => decide (c - h < 2 * i)
       | none => false) && hbCovered i o es
  | o, _ :: es => hbCovered i o es

example : Checker.initial.last_heartbeat = 0 := rfl

example :
    legal Checker.initial 0 [Event.start 100 2, Event.fire 102 0] = true := by
  norm_num [legal, Checker.step, Checker.start, Checker.start_heartbeat_timer,
    Checker.initial, Checker.check_for_heartbeat, Event.time]

example :
    (run Checker.initial [Event.start 100 2, Event.fire 102 0]).sink
      = [RabbitExc.connectionReset 102] := by
  norm_num [run, Checker.step, Checker.start, Checker.start_heartbeat_timer,
    Checker.initial, Checker.check_for_heartbeat, Checker.MAX_MISSED_HEARTBEATS]

/-- The check routine never modifies last_heartbeat, whatever branch runs. -/
theorem check_for_heartbeat_last_heartbeat (s : Checker) (now : ℚ) (b : ℕ) :
    (s.check_for_heartbeat now b).last_heartbeat = s.last_heartbeat := by
  unfold Checker.check_for_heartbeat Checker.start_heartbeat_timer
  dsimp only
  split_ifs <;> rfl

/-- Teardown only touches the timer: queue, timestamps and counters stay. -/
theorem teardown_fields (s : Checker) (now : ℚ) :
    (s.teardown now).sink = s.sink ∧
    (s.teardown now).last_heartbeat = s.last_heartbeat ∧
    (s.teardown now).last_bytes = s.last_bytes ∧
    (s.teardown now).interval = s.interval := by
  unfold Checker.teardown
  rcases s.timer with _ | ft
  · exact ⟨rfl, rfl, rfl, rfl⟩
  · dsimp only
    split_ifs <;> exact ⟨rfl, rfl, rfl, rfl⟩

/-- Teardown with no pending timer changes nothing. -/
theorem teardown_of_timer_none (s : Checker) (now : ℚ) (h : s.timer = none) :
    s.teardown now = s := by
  unfold Checker.teardown
  rw [h]

/-- Teardown strictly before the scheduled firing time cancels the timer. -/
theorem teardown_cancels_waiting (s : Checker) (now ft : ℚ)
    (h : s.timer = some ft) (hlt : now < ft) :
    s.teardown now = { s with timer := none } := by
  unfold Checker.teardown
  rw [h]
  exact if_pos hlt

/-- C2: on a timer-fired check that reads a byte counter strictly greater
than last_bytes, no exception is put on the queue whatever the heartbeat
age, last_bytes is updated to the value read, and exactly one new timer is
armed to fire interval later. -/
theorem check_bytes_increase (s : Checker) (now : ℚ) (b : ℕ)
    (h : b > s.last_bytes) :
    s.check_for_heartbeat now b
      = { s with last_bytes := b, timer := some (now + s.interval) } := by
  unfold Checker.check_for_heartbeat Checker.start_heartbeat_timer
  rw [if_pos h]

/-- Witness for check_bytes_increase at a concrete input. -/
theorem check_bytes_increase_witness :
    5 > Checker.initial.last_bytes ∧
    Checker.initial.check_for_heartbeat 1 5
      = { Checker.initial with
          last_bytes := 5,
          timer := some (1 + Checker.initial.interval) } :=
  ⟨by decide, check_bytes_increase Checker.initial 1 5 (by decide)⟩

/-- C3: on a timer-fired check with no new bytes, an exception is queued
iff now - last_heartbeat ≥ interval * MAX_MISSED_HEARTBEATS with
MAX_MISSED_HEARTBEATS = 2; the queued exception is a
ConnectionResetException carrying the elapsed age and then no timer is
rearmed; otherwise exactly one new timer is armed and nothing is queued. -/
theorem check_no_bytes (s : Checker) (now : ℚ) (b : ℕ)
    (h : ¬ b > s.last_bytes) :
    Checker.MAX_MISSED_HEARTBEATS = 2 ∧
    (now - s.last_heartbeat ≥ s.interval * 2 →
      s.check_for_heartbeat now b
        = { s with
            sink := s.sink ++ [RabbitExc.connectionReset (now - s.last_heartbeat)],
            timer := none }) ∧
    (now - s.last_heartbeat < s.interval * 2 →
      s.check_for_heartbeat now b
        = { s with timer := some (now + s.interval) }) := by
  refine ⟨rfl, ?_, ?_⟩ <;> intro h2 <;>
    unfold Checker.check_for_heartbeat Checker.start_heartbeat_timer <;>
    rw [if_neg h]
  · rw [if_pos (by simpa [Checker.MAX_MISSED_HEARTBEATS] using h2)]
  · rw [if_neg (by simpa [Checker.MAX_MISSED_HEARTBEATS] using not_le.mpr h2)]

/-- Witness for check_no_bytes at a concrete input. -/
theorem check_no_bytes_witness :
    ¬ 0 > Checker.initial.last_bytes ∧
    (Checker.MAX_MISSED_HEARTBEATS = 2 ∧
     ((5 : ℚ) - Checker.initial.last_heartbeat ≥ Checker.initial.interval * 2 →
       Checker.initial.check_for_heartbeat 5 0
         = { Checker.initial with
             sink := Checker.initial.sink
               ++ [RabbitExc.connectionReset (5 - Checker.initial.last_heartbeat)],
             timer := none }) ∧
     ((5 : ℚ) - Checker.initial.last_heartbeat < Checker.initial.interval * 2 →
       Checker.initial.check_for_heartbeat 5 0
         = { Checker.initial with timer := some (5 + Checker.initial.interval) })) :=
  ⟨by decide, check_no_bytes Checker.initial 5 0 (by decide)⟩

/-- C8: every execution of the check routine either arms exactly one new
timer (to fire interval from now) leaving the queue untouched, or queues
the failure and leaves no timer armed - never both.  (The model's single
Option-valued timer field mirrors the single self.heartbeat_timer
attribute of the source: at most one timer is armed at any instant.) -/
theorem check_rearm_or_fail (s : Checker) (now : ℚ) (b : ℕ) :
    (((s.check_for_heartbeat now b).timer = some (now + s.interval) ∧
      (s.check_for_heartbeat now b).sink = s.sink) ∨
     ((s.check_for_heartbeat now b).timer = none ∧
      (s.check_for_heartbeat now b).sink
        = s.sink ++ [RabbitExc.connectionReset (now - s.last_heartbeat)])) ∧
    ((s.check_for_heartbeat now b).sink ≠ s.sink →
      (s.check_for_heartbeat now b).timer = none) := by
  unfold Checker.check_for_heartbeat Checker.start_heartbeat_timer
  dsimp only
  split_ifs <;> simp

/-- Along a legal trace whose start events all carry interval 0, a checker
with no pending timer never arms one and never queues anything. -/
theorem run_untouched_when_starts_zero (tr : List Event) :
    ∀ (s : Checker) (t : ℚ),
      legal s t tr = true → startsAllZero tr = true → s.timer = none →
      (run s tr).timer = none ∧ (run s tr).sink = s.sink := by
  induction tr with
  | nil => exact fun s t _ _ hT => ⟨hT, rfl⟩
  | cons e es ih =>
    intro s t hleg hz hT
    cases e with
    | start now i =>
      simp only [legal, Bool.and_eq_true, decide_eq_true_eq, Event.time,
        Checker.step] at hleg
      simp only [startsAllZero, Bool.and_eq_true, decide_eq_true_eq] at hz
      obtain ⟨-, hleg⟩ := hleg
      obtain ⟨hi0, hz⟩ := hz
      subst hi0
      have hstep : s.start now 0 = { s with interval := 0 } := by
        simp [Checker.start]
      simp only [run, Checker.step, hstep]
      exact ih { s with interval := 0 } now hleg hz hT
    | heartbeat now =>
      simp only [legal, Bool.and_eq_true, decide_eq_true_eq, Event.time,
        Checker.step] at hleg
      simp only [startsAllZero] at hz
      simp only [run, Checker.step]
      exact ih (s.on_heartbeat now) now hleg.2 hz hT
    | fire now b =>
      simp only [legal, Bool.and_eq_true, decide_eq_true_eq, Event.time,
        Checker.step] at hleg
      exact absurd hleg.1.1.2 (by simp [hT])
    | teardown now =>
      simp only [legal, Bool.and_eq_true, decide_eq_true_eq, Event.time,
        Checker.step] at hleg
      simp only [startsAllZero] at hz
      rw [teardown_of_timer_none s now hT] at hleg
      simp only [run, Checker.step, teardown_of_timer_none s now hT]
      exact ih s now hleg.2 hz hT

/-- C6: start stores the interval and arms the first check timer iff the
interval is positive (for the non-negative intervals the protocol
negotiates); and along any legal trace all of whose start events carry
interval 0, no timer is ever armed and no exception is ever queued,
whatever time elapses. -/
theorem start_stores_and_arms (s : Checker) (now i : ℚ) (tr : List Event)
    (hi : 0 ≤ i) (hleg : legal Checker.initial 0 tr = true)
    (hz : startsAllZero tr = true) :
    (s.start now i).interval = i ∧
    (0 < i → (s.start now i).timer = some (now + i)) ∧
    (i = 0 → (s.start now i).timer = s.timer) ∧
    (run Checker.initial tr).timer = none ∧
    (run Checker.initial tr).sink = [] := by
  have htr := run_untouched_when_starts_zero tr Checker.initial 0 hleg hz rfl
  refine ⟨?_, ?_, ?_, htr.1, htr.2⟩
  · unfold Checker.start Checker.start_heartbeat_timer
    split_ifs <;> rfl
  · intro h
    simp [Checker.start, Checker.start_heartbeat_timer, h.ne']
  · intro h
    subst h
    simp [Checker.start]

/-- Witness for start_stores_and_arms at a concrete input. -/
theorem start_stores_and_arms_witness :
    (0 : ℚ) ≤ 0 ∧
    legal Checker.initial 0 [Event.start 3 0, Event.heartbeat 7, Event.teardown 9]
      = true ∧
    startsAllZero [Event.start 3 0, Event.heartbeat 7, Event.teardown 9] = true ∧
    ((Checker.initial.start 5 0).interval = 0 ∧
     ((0 : ℚ) < 0 → (Checker.initial.start 5 0).timer = some (5 + 0)) ∧
     ((0 : ℚ) = 0 → (Checker.initial.start 5 0).timer = Checker.initial.timer) ∧
     (run Checker.initial
        [Event.start 3 0, Event.heartbeat 7, Event.teardown 9]).timer = none ∧
     (run Checker.initial
        [Event.start 3 0, Event.heartbeat 7, Event.teardown 9]).sink = []) := by
  have h1 : legal Checker.initial 0
      [Event.start 3 0, Event.heartbeat 7, Event.teardown 9] = true := by
    norm_num [legal, Checker.step, Checker.start, Checker.on_heartbeat,
      Checker.teardown, Checker.initial, Event.time]
  have h2 : startsAllZero [Event.start 3 0, Event.heartbeat 7, Event.teardown 9]
      = true := by norm_num [startsAllZero]
  exact ⟨le_refl 0, h1, h2,
    start_stores_and_arms Checker.initial 5 0
      [Event.start 3 0, Event.heartbeat 7, Event.teardown 9] (le_refl 0) h1 h2⟩

/-- Along a legal trace starting no earlier than the recorded heartbeat
time, last_heartbeat never decreases (only heartbeat events touch it, and
they write the current, later, time). -/
theorem last_heartbeat_mono (tr : List Event) :
    ∀ (s : Checker) (t : ℚ), legal s t tr = true → s.last_heartbeat ≤ t →
      s.last_heartbeat ≤ (run s tr).last_heartbeat := by
  induction tr with
  | nil => exact fun s t _ h => le_refl _
  | cons e es ih =>
    intro s t hleg hlt
    cases e with
    | start now i =>
      simp only [legal, Bool.and_eq_true, decide_eq_true_eq, Event.time,
        Checker.step] at hleg
      obtain ⟨⟨htn, -⟩, hleg⟩ := hleg
      have hpres : (s.start now i).last_heartbeat = s.last_heartbeat := by
        unfold Checker.start Checker.start_heartbeat_timer
        split_ifs <;> rfl
      simp only [run, Checker.step]
      calc s.last_heartbeat = (s.start now i).last_heartbeat := hpres.symm
        _ ≤ (run (s.start now i) es).last_heartbeat :=
            ih _ now hleg (hpres.trans_le (hlt.trans htn))
    | heartbeat now =>
      simp only [legal, Bool.and_eq_true, decide_eq_true_eq, Event.time,
        Checker.step] at hleg
      obtain ⟨htn, hleg⟩ := hleg
      simp only [run, Checker.step]
      have hset : (s.on_heartbeat now).last_heartbeat = now := rfl
      calc s.last_heartbeat ≤ now := hlt.trans htn
        _ = (s.on_heartbeat now).last_heartbeat := hset.symm
        _ ≤ (run (s.on_heartbeat now) es).last_heartbeat :=
            ih _ now hleg (le_of_eq hset)
    | fire now b =>
      simp only [legal, Bool.and_eq_true, decide_eq_true_eq, Event.time,
        Checker.step] at hleg
      obtain ⟨⟨⟨htn, -⟩, -⟩, hleg⟩ := hleg
      have hpres := check_for_heartbeat_last_heartbeat s now b
      simp only [run, Checker.step]
      calc s.last_heartbeat = (s.check_for_heartbeat now b).last_heartbeat :=
            hpres.symm
        _ ≤ (run (s.check_for_heartbeat now b) es).last_heartbeat :=
            ih _ now hleg (hpres.trans_le (hlt.trans htn))
    | teardown now =>
      simp only [legal, Bool.and_eq_true, decide_eq_true_eq, Event.time,
        Checker.step] at hleg
      obtain ⟨htn, hleg⟩ := hleg
      have hpres := (teardown_fields s now).2.1
      simp only [run, Checker.step]
      calc s.last_heartbeat = (s.teardown now).last_heartbeat := hpres.symm
        _ ≤ (run (s.teardown now) es).last_heartbeat :=
            ih _ now hleg (hpres.trans_le (hlt.trans htn))

/-- C7: on_heartbeat sets last_heartbeat to the current time and modifies
nothing else - in particular it queues no exception; and along any legal
trace (all of whose events happen no earlier than the recorded heartbeat
timestamp), last_heartbeat only moves forward in time. -/
theorem on_heartbeat_effect_and_mono (s : Checker) (now t : ℚ) (tr : List Event)
    (hleg : legal s t tr = true) (hlt : s.last_heartbeat ≤ t) :
    s.on_heartbeat now = { s with last_heartbeat := now } ∧
    (s.on_heartbeat now).sink = s.sink ∧
    s.last_heartbeat ≤ (run s tr).last_heartbeat :=
  ⟨rfl, rfl, last_heartbeat_mono tr s t hleg hlt⟩

/-- Witness for on_heartbeat_effect_and_mono at a concrete input. -/
theorem on_heartbeat_effect_and_mono_witness :
    legal Checker.initial 0 [Event.heartbeat 2, Event.heartbeat 5] = true ∧
    Checker.initial.last_heartbeat ≤ 0 ∧
    (Checker.initial.on_heartbeat 1
        = { Checker.initial with last_heartbeat := 1 } ∧
     (Checker.initial.on_heartbeat 1).sink = Checker.initial.sink ∧
     Checker.initial.last_heartbeat
       ≤ (run Checker.initial [Event.heartbeat 2, Event.heartbeat 5]).last_heartbeat) := by
  have h1 : legal Checker.initial 0 [Event.heartbeat 2, Event.heartbeat 5]
      = true := by
    norm_num [legal, Checker.step, Checker.on_heartbeat, Checker.initial,
      Event.time]
  exact ⟨h1, le_refl 0,
    on_heartbeat_effect_and_mono Checker.initial 1 0
      [Event.heartbeat 2, Event.heartbeat 5] h1 (le_refl 0)⟩

/-- Branch equation: byte counter strictly grew, so the check rearms. -/
theorem check_eq_of_bytes_gt (s : Checker) (now : ℚ) (b : ℕ)
    (h : b > s.last_bytes) :
    s.check_for_heartbeat now b
      = { s with last_bytes := b, timer := some (now + s.interval) } := by
  unfold Checker.check_for_heartbeat Checker.start_heartbeat_timer
  rw [if_pos h]

/-- Branch equation: no new bytes and the age reached the threshold, so the
check queues the failure and does not rearm. -/
theorem check_eq_of_age_ge (s : Checker) (now : ℚ) (b : ℕ)
    (h : ¬ b > s.last_bytes)
    (h2 : s.interval * Checker.MAX_MISSED_HEARTBEATS ≤ now - s.last_heartbeat) :
    s.check_for_heartbeat now b
      = { s with
          sink := s.sink ++ [RabbitExc.connectionReset (now - s.last_heartbeat)],
          timer := none } := by
  unfold Checker.check_for_heartbeat Checker.start_heartbeat_timer
  rw [if_neg h]
  exact if_pos h2

/-- Branch equation: no new bytes and the age is below the threshold, so the
check rearms and queues nothing. -/
theorem check_eq_of_age_lt (s : Checker) (now : ℚ) (b : ℕ)
    (h : ¬ b > s.last_bytes)
    (h2 : now - s.last_heartbeat < s.interval * Checker.MAX_MISSED_HEARTBEATS) :
    s.check_for_heartbeat now b = { s with timer := some (now + s.interval) } := by
  unfold Checker.check_for_heartbeat Checker.start_heartbeat_timer
  rw [if_neg h]
  exact if_neg (not_le.mpr h2)

/-- The start routine never touches the exception queue. -/
theorem start_sink (s : Checker) (now i : ℚ) : (s.start now i).sink = s.sink := by
  unfold Checker.start Checker.start_heartbeat_timer
  split_ifs <;> rfl

/-- A trace with no start event trivially has all its starts at zero. -/
theorem startsAllZero_of_countStarts_zero (tr : List Event)
    (h : countStarts tr = 0) : startsAllZero tr = true := by
  induction tr with
  | nil => rfl
  | cons e es ih =>
    cases e with
    | start now i => exact absurd h (by simp [countStarts])
    | heartbeat now => exact ih (by simpa [countStarts] using h)
    | fire now b => exact ih (by simpa [countStarts] using h)
    | teardown now => exact ih (by simpa [countStarts] using h)

/-- With no pending timer and no start event remaining, the run changes
neither the queue nor the (absent) timer. -/
theorem run_sink_stable (tr : List Event) (s : Checker) (t : ℚ)
    (hleg : legal s t tr = true) (hc : countStarts tr = 0) (hT : s.timer = none) :
    (run s tr).sink = s.sink ∧ (run s tr).timer = none := by
  have h := run_untouched_when_starts_zero tr s t hleg
    (startsAllZero_of_countStarts_zero tr hc) hT
  exact ⟨h.2, h.1⟩

/-- Core single-failure invariant: from an empty queue, a legal trace with
at most one start (and, if a timer is already pending, no start at all)
queues at most one exception. -/
theorem sink_le_one_aux (tr : List Event) :
    ∀ (s : Checker) (t : ℚ), legal s t tr = true → countStarts tr ≤ 1 →
      s.sink = [] → (s.timer = none ∨ countStarts tr = 0) →
      (run s tr).sink.length ≤ 1 := by
  induction tr with
  | nil =>
    intro s t _ _ hsink _
    simp [run, hsink]
  | cons e es ih =>
    intro s t hleg hc hsink hside
    cases e with
    | start now i =>
      simp only [legal, Bool.and_eq_true, decide_eq_true_eq, Event.time,
        Checker.step] at hleg
      simp only [countStarts] at hc
      simp only [run, Checker.step]
      refine ih (s.start now i) now hleg.2 (by omega) ?_ (Or.inr (by omega))
      rw [start_sink, hsink]
    | heartbeat now =>
      simp only [legal, Bool.and_eq_true, decide_eq_true_eq, Event.time,
        Checker.step] at hleg
      simp only [countStarts] at hc
      simp only [run, Checker.step]
      refine ih (s.on_heartbeat now) now hleg.2 hc hsink ?_
      rcases hside with hT | hz
      · exact Or.inl hT
      · exact Or.inr (by simpa [countStarts] using hz)
    | fire now b =>
      simp only [legal, Bool.and_eq_true, decide_eq_true_eq, Event.time,
        Checker.step] at hleg
      obtain ⟨⟨⟨-, hT⟩, -⟩, hleg⟩ := hleg
      have hz : countStarts es = 0 := by
        rcases hside with hnone | hz
        · rw [hT] at hnone; cases hnone
        · simpa [countStarts] using hz
      simp only [run, Checker.step]
      by_cases hb : b > s.last_bytes
      · rw [check_eq_of_bytes_gt s now b hb] at hleg ⊢
        exact ih _ now hleg (by omega) hsink (Or.inr hz)
      · by_cases hage :
          s.interval * Checker.MAX_MISSED_HEARTBEATS ≤ now - s.last_heartbeat
        · rw [check_eq_of_age_ge s now b hb hage] at hleg ⊢
          have hstable := run_sink_stable es _ now hleg hz rfl
          rw [hstable.1]
          simp [hsink]
        · rw [check_eq_of_age_lt s now b hb (not_le.mp hage)] at hleg ⊢
          exact ih _ now hleg (by omega) hsink (Or.inr hz)
    | teardown now =>
      simp only [legal, Bool.and_eq_true, decide_eq_true_eq, Event.time,
        Checker.step] at hleg
      simp only [countStarts] at hc
      simp only [run, Checker.step]
      refine ih (s.teardown now) now hleg.2 hc ?_ ?_
      · rw [(teardown_fields s now).1, hsink]
      · rcases hside with hT | hz
        · rw [teardown_of_timer_none s now hT]
          exact Or.inl hT
        · exact Or.inr (by simpa [countStarts] using hz)

/-- C4: over any legal trace of a single Checker lifetime (one start call at
most, arbitrary heartbeats, byte-counter readings, timer firings and
teardowns), at most one exception is ever queued: the failing check does
not rearm, so no later check can run and queue a second failure. -/
theorem at_most_one_failure (tr : List Event)
    (hleg : legal Checker.initial 0 tr = true) (hc : countStarts tr ≤ 1) :
    (run Checker.initial tr).sink.length ≤ 1 :=
  sink_le_one_aux tr Checker.initial 0 hleg hc rfl (Or.inl rfl)

/-- Witness for at_most_one_failure at a concrete trace that does queue a
failure. -/
theorem at_most_one_failure_witness :
    legal Checker.initial 0
        [Event.start 100 2, Event.fire 102 0, Event.heartbeat 103] = true ∧
    countStarts [Event.start 100 2, Event.fire 102 0, Event.heartbeat 103] ≤ 1 ∧
    (run Checker.initial
        [Event.start 100 2, Event.fire 102 0, Event.heartbeat 103]).sink.length
      ≤ 1 := by
  have h1 : legal Checker.initial 0
      [Event.start 100 2, Event.fire 102 0, Event.heartbeat 103] = true := by
    norm_num [legal, Checker.step, Checker.start, Checker.start_heartbeat_timer,
      Checker.on_heartbeat, Checker.check_for_heartbeat, Checker.initial,
      Checker.MAX_MISSED_HEARTBEATS, Event.time]
  have h2 : countStarts [Event.start 100 2, Event.fire 102 0, Event.heartbeat 103]
      ≤ 1 := by norm_num [countStarts]
  exact ⟨h1, h2, at_most_one_failure _ h1 h2⟩

/-- C5 counterexample: with interval 2, the two heartbeats (at 103 and 104)
are spaced 1 < 2 * 2 apart and the byte counter never increases, yet a
failure is queued - the first check at 102 runs before any heartbeat has
arrived, when last_heartbeat still holds its initial value 0, so the claim
as stated (no failure for any heartbeat sequence spaced < interval * 2) is
false on the code. -/
theorem late_first_heartbeat_fails :
    legal Checker.initial 0
        [Event.start 100 2, Event.fire 102 0, Event.heartbeat 103,
          Event.heartbeat 104] = true ∧
    firesZero [Event.start 100 2, Event.fire 102 0, Event.heartbeat 103,
          Event.heartbeat 104] = true ∧
    (104 : ℚ) - 103 < 2 * 2 ∧
    (run Checker.initial
        [Event.start 100 2, Event.fire 102 0, Event.heartbeat 103,
          Event.heartbeat 104]).sink ≠ [] := by
  refine ⟨?_, ?_, by norm_num, ?_⟩
  · norm_num [legal, Checker.step, Checker.start, Checker.start_heartbeat_timer,
      Checker.on_heartbeat, Checker.check_for_heartbeat, Checker.initial,
      Checker.MAX_MISSED_HEARTBEATS, Event.time]
  · norm_num [firesZero]
  · norm_num [run, Checker.step, Checker.start, Checker.start_heartbeat_timer,
      Checker.on_heartbeat, Checker.check_for_heartbeat, Checker.initial,
      Checker.MAX_MISSED_HEARTBEATS]

/-- Core of the corrected liveness property: from a state with the right
interval, byte counter at zero and an empty queue, a legal trace with no
start, no bytes, and every check covered by a recent-enough heartbeat
queues nothing.  o tracks the time of the latest heartbeat, matching
last_heartbeat whenever it is some. -/
theorem no_failure_when_covered_aux (i : ℚ) (tr : List Event) :
    ∀ (s : Checker) (t : ℚ) (o : Option ℚ),
      legal s t tr = true → countStarts tr = 0 → firesZero tr = true →
      hbCovered i o tr = true →
      s.interval = i → s.last_bytes = 0 → s.sink = [] →
      (∀ h, o = some h → s.last_heartbeat = h) →
      (run s tr).sink = [] := by
  induction tr with
  | nil =>
    intro s t o _ _ _ _ _ _ hsink _
    simpa [run] using hsink
  | cons e es ih =>
    intro s t o hleg hc hf hcov hi hb hsink ho
    cases e with
    | start now j => exact absurd hc (by simp [countStarts])
    | heartbeat now =>
      simp only [legal, Bool.and_eq_true, decide_eq_true_eq, Event.time,
        Checker.step] at hleg
      simp only [countStarts] at hc
      simp only [firesZero] at hf
      simp only [hbCovered] at hcov
      simp only [run, Checker.step]
      refine ih (s.on_heartbeat now) now (some now) hleg.2 hc hf hcov hi hb hsink ?_
      intro h hh
      cases hh
      rfl
    | fire now b =>
      simp only [legal, Bool.and_eq_true, decide_eq_true_eq, Event.time,
        Checker.step] at hleg
      obtain ⟨⟨⟨-, -⟩, -⟩, hleg⟩ := hleg
      simp only [countStarts] at hc
      simp only [firesZero, Bool.and_eq_true, decide_eq_true_eq] at hf
      obtain ⟨hb0, hf⟩ := hf
      subst hb0
      rcases o with _ | h
      · simp [hbCovered] at hcov
      · simp only [hbCovered, Bool.and_eq_true, decide_eq_true_eq] at hcov
        obtain ⟨hlt, hcov⟩ := hcov
        have hlh : s.last_heartbeat = h := ho h rfl
        have hnb : ¬ (0 : ℕ) > s.last_bytes := by omega
        have hage : now - s.last_heartbeat
            < s.interval * Checker.MAX_MISSED_HEARTBEATS := by
          rw [hlh, hi, Checker.MAX_MISSED_HEARTBEATS]
          linarith [hlt]
        have hstep := check_eq_of_age_lt s now 0 hnb hage
        rw [hstep] at hleg
        simp only [run, Checker.step, hstep]
        exact ih _ now (some h) hleg hc hf hcov hi hb hsink
          (fun h2 hh => by cases hh; exact hlh)
    | teardown now =>
      simp only [legal, Bool.and_eq_true, decide_eq_true_eq, Event.time,
        Checker.step] at hleg
      simp only [countStarts] at hc
      simp only [firesZero] at hf
      simp only [hbCovered] at hcov
      simp only [run, Checker.step]
      obtain ⟨hsk, hlh, hlb, hint⟩ := teardown_fields s now
      refine ih (s.teardown now) now o hleg.2 hc hf hcov (hint.trans hi)
        (hlb.trans hb) (hsk.trans hsink) ?_
      intro h hh
      rw [hlh]
      exact ho h hh

/-- C5 (amended): for every interval i > 0, along any legal single-start
trace with the byte counter stuck at 0 in which every timer check is
preceded by a heartbeat strictly less than i * 2 seconds old, no failure is
ever queued.  (The unqualified claim - any heartbeat sequence spaced less
than i * 2 apart - is refuted by late_first_heartbeat_fails: the first
check must itself be covered, which the initial epoch value of
last_heartbeat does not guarantee.) -/
theorem no_failure_when_heartbeats_cover (i t0 : ℚ) (tr : List Event)
    (hi : 0 < i)
    (hleg : legal Checker.initial 0 (Event.start t0 i :: tr) = true)
    (hc : countStarts tr = 0)
    (hf : firesZero tr = true)
    (hcov : hbCovered i none tr = true) :
    (run Checker.initial (Event.start t0 i :: tr)).sink = [] := by
  simp only [legal, Bool.and_eq_true, decide_eq_true_eq, Event.time,
    Checker.step] at hleg
  simp only [run, Checker.step]
  have hs1 : Checker.initial.start t0 i
      = { interval := i, last_bytes := 0, last_heartbeat := 0,
          timer := some (t0 + i), sink := [] } := by
    unfold Checker.start Checker.start_heartbeat_timer
    rw [if_pos hi.ne']
    rfl
  rw [hs1] at hleg ⊢
  exact no_failure_when_covered_aux i tr _ t0 none hleg.2 hc hf hcov rfl rfl rfl
    (fun h hh => by cases hh)

/-- Witness for no_failure_when_heartbeats_cover: interval 2, heartbeats
every 1.5 seconds, checks at 2, 4, 6, 8, 10, byte counter stuck at 0 - no
failure after 10 seconds. -/
theorem no_failure_when_heartbeats_cover_witness :
    (0 : ℚ) < 2 ∧
    legal Checker.initial 0
        (Event.start 0 2 ::
          [Event.heartbeat (3/2), Event.fire 2 0, Event.heartbeat 3,
            Event.fire 4 0, Event.heartbeat (9/2), Event.heartbeat 6,
            Event.fire 6 0, Event.heartbeat (15/2), Event.fire 8 0,
            Event.heartbeat 9, Event.fire 10 0]) = true ∧
    countStarts
        [Event.heartbeat (3/2), Event.fire 2 0, Event.heartbeat 3,
          Event.fire 4 0, Event.heartbeat (9/2), Event.heartbeat 6,
          Event.fire 6 0, Event.heartbeat (15/2), Event.fire 8 0,
          Event.heartbeat 9, Event.fire 10 0] = 0 ∧
    firesZero
        [Event.heartbeat (3/2), Event.fire 2 0, Event.heartbeat 3,
          Event.fire 4 0, Event.heartbeat (9/2), Event.heartbeat 6,
          Event.fire 6 0, Event.heartbeat (15/2), Event.fire 8 0,
          Event.heartbeat 9, Event.fire 10 0] = true ∧
    hbCovered 2 none
        [Event.heartbeat (3/2), Event.fire 2 0, Event.heartbeat 3,
          Event.fire 4 0, Event.heartbeat (9/2), Event.heartbeat 6,
          Event.fire 6 0, Event.heartbeat (15/2), Event.fire 8 0,
          Event.heartbeat 9, Event.fire 10 0] = true ∧
    (run Checker.initial
        (Event.start 0 2 ::
          [Event.heartbeat (3/2), Event.fire 2 0, Event.heartbeat 3,
            Event.fire 4 0, Event.heartbeat (9/2), Event.heartbeat 6,
            Event.fire 6 0, Event.heartbeat (15/2), Event.fire 8 0,
            Event.heartbeat 9, Event.fire 10 0])).sink = [] := by
  have h1 : legal Checker.initial 0
      (Event.start 0 2 ::
        [Event.heartbeat (3/2), Event.fire 2 0, Event.heartbeat 3,
          Event.fire 4 0, Event.heartbeat (9/2), Event.heartbeat 6,
          Event.fire 6 0, Event.heartbeat (15/2), Event.fire 8 0,
          Event.heartbeat 9, Event.fire 10 0]) = true := by
    norm_num [legal, Checker.step, Checker.start, Checker.start_heartbeat_timer,
      Checker.on_heartbeat, Checker.check_for_heartbeat, Checker.initial,
      Checker.MAX_MISSED_HEARTBEATS, Event.time]
  have h2 : countStarts
      [Event.heartbeat (3/2), Event.fire 2 0, Event.heartbeat 3,
        Event.fire 4 0, Event.heartbeat (9/2), Event.heartbeat 6,
        Event.fire 6 0, Event.heartbeat (15/2), Event.fire 8 0,
        Event.heartbeat 9, Event.fire 10 0] = 0 := by norm_num [countStarts]
  have h3 : firesZero
      [Event.heartbeat (3/2), Event.fire 2 0, Event.heartbeat 3,
        Event.fire 4 0, Event.heartbeat (9/2), Event.heartbeat 6,
        Event.fire 6 0, Event.heartbeat (15/2), Event.fire 8 0,
        Event.heartbeat 9, Event.fire 10 0] = true := by norm_num [firesZero]
  have h4 : hbCovered 2 none
      [Event.heartbeat (3/2), Event.fire 2 0, Event.heartbeat 3,
        Event.fire 4 0, Event.heartbeat (9/2), Event.heartbeat 6,
        Event.fire 6 0, Event.heartbeat (15/2), Event.fire 8 0,
        Event.heartbeat 9, Event.fire 10 0] = true := by
    norm_num [hbCovered]
  exact ⟨by norm_num, h1, h2, h3, h4,
    no_failure_when_heartbeats_cover 2 0 _ (by norm_num) h1 h2 h3 h4⟩

/-- C1 counterexample: interval 2, started at wall-clock time 100 with no
heartbeat and no byte traffic: a failure is queued at time 102, only
2 = interval seconds after the start - earlier than interval * 2 = 4 -
and it reports age 102, not about 4 seconds. -/
theorem failure_before_two_intervals :
    legal Checker.initial 0 [Event.start 100 2, Event.fire 102 0] = true ∧
    (run Checker.initial [Event.start 100 2, Event.fire 102 0]).sink
      = [RabbitExc.connectionReset 102] ∧
    (102 : ℚ) - 100 < 2 * 2 := by
  refine ⟨?_, ?_, by norm_num⟩
  · norm_num [legal, Checker.step, Checker.start, Checker.start_heartbeat_timer,
      Checker.check_for_heartbeat, Checker.initial,
      Checker.MAX_MISSED_HEARTBEATS, Event.time]
  · norm_num [run, Checker.step, Checker.start, Checker.start_heartbeat_timer,
      Checker.check_for_heartbeat, Checker.initial,
      Checker.MAX_MISSED_HEARTBEATS]

/-- C1 (amended): for every interval i > 0 started at a wall-clock time
t0 ≥ i with no heartbeat and no byte traffic, exactly one failure is
queued over the whole lifetime: it happens already at the first timer
firing, i (not i * 2) seconds after the start, reports the epoch-relative
age t0 + i (not about i * 2), leaves no timer armed, and no legal
continuation without a further start ever queues anything else. -/
theorem single_failure_at_first_fire (i t0 : ℚ) (tr : List Event) (hi : 0 < i)
    (ht : i ≤ t0) (hc : countStarts tr = 0)
    (hleg2 : legal (run Checker.initial [Event.start t0 i, Event.fire (t0 + i) 0])
        (t0 + i) tr = true) :
    legal Checker.initial 0 [Event.start t0 i, Event.fire (t0 + i) 0] = true ∧
    (run Checker.initial [Event.start t0 i, Event.fire (t0 + i) 0]).sink
      = [RabbitExc.connectionReset (t0 + i)] ∧
    (run Checker.initial [Event.start t0 i, Event.fire (t0 + i) 0]).timer
      = none ∧
    (run (run Checker.initial [Event.start t0 i, Event.fire (t0 + i) 0]) tr).sink
      = [RabbitExc.connectionReset (t0 + i)] := by
  have hs1 : Checker.initial.start t0 i
      = (⟨i, 0, 0, some (t0 + i), []⟩ : Checker) := by
    unfold Checker.start Checker.start_heartbeat_timer
    rw [if_pos hi.ne']
    rfl
  have hs2 : (⟨i, 0, 0, some (t0 + i), []⟩ : Checker).check_for_heartbeat
        (t0 + i) 0
      = (⟨i, 0, 0, none, [RabbitExc.connectionReset (t0 + i)]⟩ : Checker) := by
    have hage : (⟨i, 0, 0, some (t0 + i), []⟩ : Checker).interval
          * Checker.MAX_MISSED_HEARTBEATS
        ≤ (t0 + i) - (⟨i, 0, 0, some (t0 + i), []⟩ : Checker).last_heartbeat := by
      show i * Checker.MAX_MISSED_HEARTBEATS ≤ (t0 + i) - 0
      rw [Checker.MAX_MISSED_HEARTBEATS]
      linarith
    have h := check_eq_of_age_ge (⟨i, 0, 0, some (t0 + i), []⟩ : Checker)
      (t0 + i) 0 (by simp) hage
    simpa using h
  have hrun : run Checker.initial [Event.start t0 i, Event.fire (t0 + i) 0]
      = (⟨i, 0, 0, none, [RabbitExc.connectionReset (t0 + i)]⟩ : Checker) := by
    simp only [run, Checker.step, hs1, hs2]
  have hlegbase : legal Checker.initial 0
      [Event.start t0 i, Event.fire (t0 + i) 0] = true := by
    simp only [legal, Checker.step, Event.time, hs1, hs2, Bool.and_eq_true,
      decide_eq_true_eq]
    refine ⟨⟨by linarith, hi.le⟩, ?_⟩
    exact ⟨⟨⟨by linarith, trivial⟩, le_refl 0⟩, trivial⟩
  rw [hrun] at hleg2 ⊢
  have hstable := run_sink_stable tr _ (t0 + i) hleg2 hc rfl
  exact ⟨hlegbase, rfl, rfl, hstable.1⟩

/-- Witness for single_failure_at_first_fire at interval 2, start time 100,
followed by a late heartbeat. -/
theorem single_failure_at_first_fire_witness :
    (0 : ℚ) < 2 ∧ (2 : ℚ) ≤ 100 ∧ countStarts [Event.heartbeat 103] = 0 ∧
    legal (run Checker.initial [Event.start 100 2, Event.fire (100 + 2) 0])
        (100 + 2) [Event.heartbeat 103] = true ∧
    (legal Checker.initial 0 [Event.start 100 2, Event.fire (100 + 2) 0] = true ∧
     (run Checker.initial [Event.start 100 2, Event.fire (100 + 2) 0]).sink
       = [RabbitExc.connectionReset (100 + 2)] ∧
     (run Checker.initial [Event.start 100 2, Event.fire (100 + 2) 0]).timer
       = none ∧
     (run (run Checker.initial [Event.start 100 2, Event.fire (100 + 2) 0])
        [Event.heartbeat 103]).sink
       = [RabbitExc.connectionReset (100 + 2)]) := by
  have h1 : legal (run Checker.initial [Event.start 100 2, Event.fire (100 + 2) 0])
      (100 + 2) [Event.heartbeat 103] = true := by
    norm_num [legal, run, Checker.step, Checker.start,
      Checker.start_heartbeat_timer, Checker.on_heartbeat,
      Checker.check_for_heartbeat, Checker.initial,
      Checker.MAX_MISSED_HEARTBEATS, Event.time]
  have h2 : countStarts [Event.heartbeat 103] = 0 := by norm_num [countStarts]
  exact ⟨by norm_num, by norm_num, h2, h1,
    single_failure_at_first_fire 2 100 [Event.heartbeat 103] (by norm_num)
      (by norm_num) h2 h1⟩

/-- C10: last_heartbeat starts at 0 (the Unix epoch) and start does not
change it, so for any interval i > 0 begun at an absolute wall-clock time
t0 ≥ i with no heartbeat ever received and no bytes, the age computed at
the first check (at t0 + i) is the absolute timestamp t0 + i itself, it
already meets the threshold i * MAX_MISSED_HEARTBEATS at that very first
firing, and the queued failure reports this epoch-relative age rather than
the silence measured from start. -/
theorem epoch_age_at_first_check (i t0 : ℚ) (hi : 0 < i) (ht : i ≤ t0) :
    Checker.initial.last_heartbeat = 0 ∧
    (Checker.initial.start t0 i).last_heartbeat = 0 ∧
    legal Checker.initial 0 [Event.start t0 i, Event.fire (t0 + i) 0] = true ∧
    (t0 + i) - (Checker.initial.start t0 i).last_heartbeat = t0 + i ∧
    (Checker.initial.start t0 i).interval * Checker.MAX_MISSED_HEARTBEATS
      ≤ (t0 + i) - (Checker.initial.start t0 i).last_heartbeat ∧
    (run Checker.initial [Event.start t0 i, Event.fire (t0 + i) 0]).sink
      = [RabbitExc.connectionReset (t0 + i)] := by
  have hs1 : Checker.initial.start t0 i
      = (⟨i, 0, 0, some (t0 + i), []⟩ : Checker) := by
    unfold Checker.start Checker.start_heartbeat_timer
    rw [if_pos hi.ne']
    rfl
  have hs2 : (⟨i, 0, 0, some (t0 + i), []⟩ : Checker).check_for_heartbeat
        (t0 + i) 0
      = (⟨i, 0, 0, none, [RabbitExc.connectionReset (t0 + i)]⟩ : Checker) := by
    have hage : (⟨i, 0, 0, some (t0 + i), []⟩ : Checker).interval
          * Checker.MAX_MISSED_HEARTBEATS
        ≤ (t0 + i) - (⟨i, 0, 0, some (t0 + i), []⟩ : Checker).last_heartbeat := by
      show i * Checker.MAX_MISSED_HEARTBEATS ≤ (t0 + i) - 0
      rw [Checker.MAX_MISSED_HEARTBEATS]
      linarith
    have h := check_eq_of_age_ge (⟨i, 0, 0, some (t0 + i), []⟩ : Checker)
      (t0 + i) 0 (by simp) hage
    simpa using h
  have hlegbase : legal Checker.initial 0
      [Event.start t0 i, Event.fire (t0 + i) 0] = true := by
    simp only [legal, Checker.step, Event.time, hs1, hs2, Bool.and_eq_true,
      decide_eq_true_eq]
    refine ⟨⟨by linarith, hi.le⟩, ?_⟩
    exact ⟨⟨⟨by linarith, trivial⟩, le_refl 0⟩, trivial⟩
  refine ⟨rfl, by rw [hs1], hlegbase, by rw [hs1]; ring, ?_, ?_⟩
  · rw [hs1]
    show i * Checker.MAX_MISSED_HEARTBEATS ≤ (t0 + i) - 0
    rw [Checker.MAX_MISSED_HEARTBEATS]
    linarith
  · simp only [run, Checker.step, hs1, hs2]

/-- Witness for epoch_age_at_first_check: interval 2, started at a realistic
wall-clock timestamp of 1000000000 seconds since the epoch. -/
theorem epoch_age_at_first_check_witness :
    (0 : ℚ) < 2 ∧ (2 : ℚ) ≤ 1000000000 ∧
    (Checker.initial.last_heartbeat = 0 ∧
     (Checker.initial.start 1000000000 2).last_heartbeat = 0 ∧
     legal Checker.initial 0
        [Event.start 1000000000 2, Event.fire (1000000000 + 2) 0] = true ∧
     (1000000000 + 2 : ℚ)
         - (Checker.initial.start 1000000000 2).last_heartbeat
       = 1000000000 + 2 ∧
     (Checker.initial.start 1000000000 2).interval
         * Checker.MAX_MISSED_HEARTBEATS
       ≤ (1000000000 + 2 : ℚ)
          - (Checker.initial.start 1000000000 2).last_heartbeat ∧
     (run Checker.initial
        [Event.start 1000000000 2, Event.fire (1000000000 + 2) 0]).sink
       = [RabbitExc.connectionReset (1000000000 + 2)]) :=
  ⟨by norm_num, by norm_num,
    epoch_age_at_first_check 2 1000000000 (by norm_num) (by norm_num)⟩

/-- C9 counterexample: teardown at time 102 cannot cancel the timer already
due at exactly 102 (cancelling a threading.Timer only stops one still in
its waiting stage), and the late callback then runs the ordinary check and
queues a failure - the Checker holds no cancellation flag, so a stale
callback is not a no-op. -/
theorem stale_callback_not_noop :
    legal Checker.initial 0
        [Event.start 100 2, Event.teardown 102, Event.fire 102 0] = true ∧
    (run Checker.initial
        [Event.start 100 2, Event.teardown 102, Event.fire 102 0]).sink
      = [RabbitExc.connectionReset 102] := by
  constructor
  · norm_num [legal, Checker.step, Checker.start, Checker.start_heartbeat_timer,
      Checker.teardown, Checker.check_for_heartbeat, Checker.initial,
      Checker.MAX_MISSED_HEARTBEATS, Event.time]
  · norm_num [run, Checker.step, Checker.start, Checker.start_heartbeat_timer,
      Checker.teardown, Checker.check_for_heartbeat, Checker.initial,
      Checker.MAX_MISSED_HEARTBEATS]

/-- C9 (amended): teardown silences the watchdog only when it cancels the
timer while the timer is still waiting (strictly before its scheduled
firing time); in that case, with no subsequent start, no callback ever
runs again - the queue never changes and no timer is ever armed.  A
callback already due when teardown happens is not detected; it runs the
ordinary check and may queue a failure or rearm, as
stale_callback_not_noop shows. -/
theorem teardown_while_waiting_silences (s : Checker) (now ft : ℚ)
    (tr : List Event) (hT : s.timer = some ft) (hlt : now < ft)
    (hleg : legal (s.teardown now) now tr = true) (hc : countStarts tr = 0) :
    (run (s.teardown now) tr).sink = s.sink ∧
    (run (s.teardown now) tr).timer = none := by
  have hcancel := teardown_cancels_waiting s now ft hT hlt
  rw [hcancel] at hleg ⊢
  have h := run_sink_stable tr { s with timer := none } now hleg hc rfl
  exact ⟨h.1, h.2⟩

/-- Witness for teardown_while_waiting_silences: a started checker whose
timer is due at 102 is torn down at 101; a later heartbeat changes
nothing observable. -/
theorem teardown_while_waiting_silences_witness :
    (⟨2, 0, 0, some 102, []⟩ : Checker).timer = some 102 ∧
    (101 : ℚ) < 102 ∧
    legal ((⟨2, 0, 0, some 102, []⟩ : Checker).teardown 101) 101
        [Event.heartbeat 103] = true ∧
    countStarts [Event.heartbeat 103] = 0 ∧
    ((run ((⟨2, 0, 0, some 102, []⟩ : Checker).teardown 101)
        [Event.heartbeat 103]).sink = (⟨2, 0, 0, some 102, []⟩ : Checker).sink ∧
     (run ((⟨2, 0, 0, some 102, []⟩ : Checker).teardown 101)
        [Event.heartbeat 103]).timer = none) := by
  have h1 : legal ((⟨2, 0, 0, some 102, []⟩ : Checker).teardown 101) 101
      [Event.heartbeat 103] = true := by
    norm_num [legal, Checker.step, Checker.teardown, Checker.on_heartbeat,
      Event.time]
  have h2 : countStarts [Event.heartbeat 103] = 0 := by norm_num [countStarts]
  exact ⟨rfl, by norm_num, h1, h2,
    teardown_while_waiting_silences (⟨2, 0, 0, some 102, []⟩ : Checker) 101 102
      [Event.heartbeat 103] rfl (by norm_num) h1 h2⟩
